import Mathlib

/-!
Verification of the accounting-period utilities (`src/periods.py`).

The module is pure, stateless date arithmetic over ASCII strings.  We embed
it shallowly:

* a Python `datetime` value is a `Date` (year, month, day) triple; the
  time-of-day component is irrelevant to every code path modelled here
  (all constructed datetimes are at midnight, and a midnight datetime
  compares `<=` to any datetime of the same calendar date);
* `datetime`'s year range `MINYEAR..MAXYEAR` = 1..9999 is modelled:
  `dt.replace` and the `datetime` constructor reject years outside it
  (so `add_months` can drive its day-decrement loop to the re-raise when
  the target year overflows), and `ValidDate` — the domain of `datetime`
  values a caller can hand to these functions — carries the same bound;
* strings are Lean `String`s with ASCII semantics for `lower`, `strip`,
  `isdigit` and `int` (the spec fixes the wire format to ASCII);
* every `ValueError` a code path can raise is a constructor of `PyError`,
  one per raise site, so that the "invalid period format" error is
  distinguishable from unpacking, `int(...)` and `datetime(...)` errors.
-/

namespace Periods

/-- Python `str.lower` on one character (ASCII range). -/
def pyCharLower (c : Char) : Char :=
  if 65 ≤ c.toNat ∧ c.toNat ≤ 90 then Char.ofNat (c.toNat + 32) else c

/-- Python `str.lower` (ASCII scope). -/
def pyLower (s : String) : String := String.mk (s.toList.map pyCharLower)

/-- ASCII whitespace removed by Python `str.strip()`. -/
def pyWhite (c : Char) : Bool :=
  c.toNat = 32 || c.toNat = 9 || c.toNat = 10 || c.toNat = 13 ||
    c.toNat = 11 || c.toNat = 12

/-- Python `str.strip()`: remove whitespace from both ends. -/
def pyStrip (s : String) : String :=
  String.mk (((s.toList.dropWhile pyWhite).reverse.dropWhile pyWhite).reverse)

/-- ASCII decimal digit test. -/
def pyDigit (c : Char) : Bool := 48 ≤ c.toNat && c.toNat ≤ 57

/-- Python `str.isdigit` (ASCII scope): nonempty and all digits. -/
def pyIsDigit (s : String) : Bool := !s.toList.isEmpty && s.toList.all pyDigit

/-- Numeric value of a list of decimal digit characters. -/
def digitsToNat (cs : List Char) : Nat :=
  cs.foldl (fun a c => a * 10 + (c.toNat - 48)) 0

/-- Numeric value of a digit string. -/
def digitsVal (s : String) : Nat := digitsToNat s.toList

/-- Tail of a Python integer literal after its first digit: digits with
single underscores allowed between digits. -/
def intLitTail : List Char → Bool
  | [] => true
  | c :: rest =>
    if c = '_' then
      match rest with
      | [] => false
      | c2 :: r2 => pyDigit c2 && intLitTail r2
    else pyDigit c && intLitTail rest

/-- A Python integer literal body: at least one digit, underscores only
between digits. -/
def intLitDigits : List Char → Bool
  | [] => false
  | c :: rest => pyDigit c && intLitTail rest

/-- Split an optional leading sign off a character list, returning the sign
as `1` or `-1`. -/
def pySign (cs : List Char) : Int × List Char :=
  match cs with
  | [] => (1, [])
  | c :: rest =>
    if c = '+' then (1, rest) else if c = '-' then (-1, rest) else (1, cs)

/-- Whether Python `int(s)` succeeds (ASCII scope): optional surrounding
whitespace, optional sign, then a digit/underscore literal. -/
def pyIntValid (s : String) : Bool := intLitDigits (pySign (pyStrip s).toList).2

/-- The value of Python `int(s)` when it succeeds. -/
def pyIntVal (s : String) : Int :=
  (pySign (pyStrip s).toList).1 *
    (digitsToNat (((pySign (pyStrip s).toList).2).filter (fun c => c ≠ '_')) : Int)

/-- Helper for `pySplit`: Python `str.split(sep)` keeps empty fields. -/
def pySplitAux (sep : Char) : List Char → List Char → List (List Char)
  | [], acc => [acc.reverse]
  | c :: rest, acc =>
    if c = sep then acc.reverse :: pySplitAux sep rest []
    else pySplitAux sep rest (c :: acc)

/-- Python `str.split(sep)` for a one-character separator. -/
def pySplit (s : String) (sep : Char) : List String :=
  (pySplitAux sep s.toList []).map String.mk

/-- Python `sep in s` for a one-character `sep`. -/
def pyContains (s : String) (c : Char) : Bool := s.toList.contains c

/-- Python `s.startswith(c)` for a one-character c. -/
def pyHeadIs (s : String) (c : Char) : Bool :=
  match s.toList with
  | [] => false
  | a :: _ => a = c

/-- Python `s[1:]`. -/
def pyDrop1 (s : String) : String := String.mk (s.toList.drop 1)

/-- Python f-string formatting of an `int` (no padding). -/
def intStr (i : Int) : String := toString i

/-- `%02d` formatting (also `strftime('%m')`). -/
def pad2 (n : Nat) : String := if n < 10 then "0" ++ toString n else toString n

/-- Four-digit zero padding, as `strftime('%Y')` produces for the years in
scope (below year 1000 the CPython behaviour is platform-dependent; every
year appearing in the claims has four digits, where all platforms agree). -/
def pad4 (n : Nat) : String :=
  if n < 10 then "000" ++ toString n
  else if n < 100 then "00" ++ toString n
  else if n < 1000 then "0" ++ toString n
  else toString n

/-- Year formatting for `strftime('%Y')`; years reachable from valid
dates lie in 1..9999, where this is the plain four-digit numeral. -/
def strfY (y : Int) : String :=
  if y < 0 then "-" ++ pad4 y.natAbs else pad4 y.toNat

/-- A calendar date as carried by a Python `datetime` value (time-of-day
omitted; see the module docstring above). -/
structure Date where
  year : Int
  month : Nat
  day : Nat
deriving DecidableEq

/-- The proleptic Gregorian leap-year rule used by `datetime`. -/
def isLeapYear (y : Int) : Bool :=
  y % 4 == 0 && (y % 100 != 0 || y % 400 == 0)

/-- Days in a month of a given year; 0 for month numbers outside 1..12,
so that no day validates against a nonexistent month. -/
def daysInMonth (y : Int) (m : Nat) : Nat :=
  if m = 1 then 31
  else if m = 2 then (if isLeapYear y then 29 else 28)
  else if m = 3 then 31
  else if m = 4 then 30
  else if m = 5 then 31
  else if m = 6 then 30
  else if m = 7 then 31
  else if m = 8 then 31
  else if m = 9 then 30
  else if m = 10 then 31
  else if m = 11 then 30
  else if m = 12 then 31
  else 0

/-- A calendar date `datetime` accepts: month 1..12, a day the month
has, and a year within `MINYEAR..MAXYEAR` = 1..9999.  This is the domain
of the `datetime` arguments a caller can pass to the module. -/
def ValidDate (d : Date) : Prop :=
  1 ≤ d.month ∧ d.month ≤ 12 ∧ 1 ≤ d.day ∧ d.day ≤ daysInMonth d.year d.month ∧
    1 ≤ d.year ∧ d.year ≤ 9999

instance : DecidablePred ValidDate := fun d => by
  unfold ValidDate; infer_instance

/-- The `ValueError`s the module can raise, one constructor per raise
site: the defensive re-raise in `add_months`; the
`Invalid period format` raise (which alone carries the offending token);
tuple-unpacking failure of `period.split('-')`; failure of `int(...)`;
and rejection by the `datetime(...)` constructor. -/
inductive PyError where
  | invalidDate
  | invalidPeriodFormat (token : String)
  | valueUnpack
  | valueInt
  | valueDateCtor
deriving DecidableEq

/-- The day-decrement loop of `add_months`: try `dt.replace(year, month,
day)`; on `ValueError` decrement `day`, re-raising once `day` falls below
1.  `replace` raises when the day is invalid for the target month or the
year is outside `datetime`'s 1..9999 range (the month is 1..12 at every
call site by construction); an out-of-range year therefore rejects every
day and the loop reaches the re-raise.  Structured over the decreasing
`day`; the `0` case is the re-raise. -/
def clampDay (year : Int) (month : Nat) : Nat → Except PyError Date
  | 0 => .error .invalidDate
  | d + 1 =>
    if 1 ≤ year ∧ year ≤ 9999 ∧ d + 1 ≤ daysInMonth year month then
      .ok ⟨year, month, d + 1⟩
    else if d < 1 then .error .invalidDate
    else clampDay year month d

/-- `add_months` from `src/periods.py`: normalize the zero-based month
index with floor division and modulo (Python `//` and `%`, i.e. `Int.fdiv`
and `Int.fmod` for the positive divisor 12), then clamp the day. -/
def add_months (dt : Date) (months : Int) : Except PyError Date :=
  let month0 : Int := (dt.month : Int) - 1 + months
  let year : Int := dt.year + month0.fdiv 12
  let month : Nat := (month0.fmod 12).toNat + 1
  clampDay year month dt.day

/-- `datetime` comparison `a <= b` (lexicographic on year, month, day). -/
def dateLe (a b : Date) : Bool :=
  if a.year < b.year then true
  else if b.year < a.year then false
  else if a.month < b.month then true
  else if b.month < a.month then false
  else decide (a.day ≤ b.day)

/-- Zero-based count of months from month 1 of year 0; the loop variant of
`generate_months` and the normal form of `add_months`' target. -/
def monthIndex (d : Date) : Int := d.year * 12 + d.month - 1

/-- The year containing absolute month index `k`. -/
def indexYear (k : Int) : Int := k.fdiv 12

/-- The 1-based month of absolute month index `k`. -/
def indexMonth (k : Int) : Nat := (k.fmod 12).toNat + 1

/-- `strftime('%Y-%m')`. -/
def strfYM (d : Date) : String := strfY d.year ++ "-" ++ pad2 d.month

/-- The canonical `YYYY-MM` token of absolute month index `k`. -/
def monthTokenOfIndex (k : Int) : String :=
  strfY (indexYear k) ++ "-" ++ pad2 (indexMonth k)

/-- The canonical tokens of `n` consecutive months starting at absolute
month index `k`: a contiguous, strictly increasing month sequence. -/
def monthTokenRange (k : Int) (n : Nat) : List String :=
  (List.range n).map (fun i : Nat => monthTokenOfIndex (k + (i : Int)))

/-! ### Arithmetic lemmas about months and indices -/

theorem daysInMonth_pos {y : Int} {m : Nat} (h1 : 1 ≤ m) (h2 : m ≤ 12) :
    28 ≤ daysInMonth y m := by
  unfold daysInMonth
  interval_cases m <;> simp <;> split <;> omega

theorem indexMonth_bounds (k : Int) : 1 ≤ indexMonth k ∧ indexMonth k ≤ 12 := by
  unfold indexMonth
  have h1 := Int.fmod_nonneg' k (b := 12) (by norm_num)
  have h2 := Int.fmod_lt_of_pos k (b := 12) (by norm_num)
  omega

theorem indexYear_indexMonth_eq {y : Int} {m : Nat} (h1 : 1 ≤ m) (h2 : m ≤ 12) :
    indexYear (y * 12 + m - 1) = y ∧ indexMonth (y * 12 + m - 1) = m := by
  unfold indexYear indexMonth
  rw [Int.fdiv_eq_ediv _ (by norm_num), Int.fmod_eq_emod _ (by norm_num)]
  omega

theorem clampDay_yearMonth {y : Int} {m : Nat} :
    ∀ {day : Nat} {d : Date}, clampDay y m day = .ok d → d.year = y ∧ d.month = m := by
  intro day
  induction day with
  | zero => intro d h; simp [clampDay] at h
  | succ n ih =>
    intro d h
    unfold clampDay at h
    split at h
    · cases h; exact ⟨rfl, rfl⟩
    · split at h
      · cases h
      · exact ih h

theorem clampDay_ok {y : Int} {m : Nat} {day : Nat} (h1 : 1 ≤ day)
    (h2 : 1 ≤ daysInMonth y m) (hy1 : 1 ≤ y) (hy2 : y ≤ 9999) :
    clampDay y m day = .ok ⟨y, m, min day (daysInMonth y m)⟩ := by
  induction day with
  | zero => omega
  | succ n ih =>
    unfold clampDay
    by_cases hle : n + 1 ≤ daysInMonth y m
    · rw [if_pos ⟨hy1, hy2, hle⟩]
      have : min (n + 1) (daysInMonth y m) = n + 1 := by omega
      rw [this]
    · rw [if_neg (fun hc => hle hc.2.2)]
      have hn : ¬ n < 1 := by omega
      rw [if_neg hn]
      have : min (n + 1) (daysInMonth y m) = daysInMonth y m := by omega
      have h' : min n (daysInMonth y m) = daysInMonth y m := by omega
      rw [this, ← h']
      exact ih (by omega)

/-- If the target year is out of `datetime`'s range, `replace` rejects
every day, the loop decrements to below 1 and re-raises. -/
theorem clampDay_err {y : Int} {m : Nat} (hy : ¬ (1 ≤ y ∧ y ≤ 9999)) :
    ∀ day, clampDay y m day = .error .invalidDate := by
  intro day
  induction day with
  | zero => rfl
  | succ n ih =>
    rw [show clampDay y m (n + 1) =
      (if 1 ≤ y ∧ y ≤ 9999 ∧ n + 1 ≤ daysInMonth y m then
        Except.ok ⟨y, m, n + 1⟩
       else if n < 1 then Except.error PyError.invalidDate
       else clampDay y m n) from rfl]
    rw [if_neg (fun hc => hy ⟨hc.1, hc.2.1⟩)]
    by_cases hn : n < 1
    · rw [if_pos hn]
    · rw [if_neg hn, ih]

/-- Inversion: a successful clamp means the year was in range and the
result is the clamped date. -/
theorem clampDay_ok_inv {y : Int} {m : Nat} :
    ∀ {day : Nat} {d' : Date}, clampDay y m day = .ok d' →
      (1 ≤ y ∧ y ≤ 9999) ∧ d' = ⟨y, m, min day (daysInMonth y m)⟩ := by
  intro day
  induction day with
  | zero => intro d' h; simp [clampDay] at h
  | succ n ih =>
    intro d' h
    rw [show clampDay y m (n + 1) =
      (if 1 ≤ y ∧ y ≤ 9999 ∧ n + 1 ≤ daysInMonth y m then
        Except.ok ⟨y, m, n + 1⟩
       else if n < 1 then Except.error PyError.invalidDate
       else clampDay y m n) from rfl] at h
    by_cases hc : 1 ≤ y ∧ y ≤ 9999 ∧ n + 1 ≤ daysInMonth y m
    · rw [if_pos hc] at h
      injection h with h
      refine ⟨⟨hc.1, hc.2.1⟩, ?_⟩
      rw [← h]
      have hmin : min (n + 1) (daysInMonth y m) = n + 1 := by
        have := hc.2.2
        omega
      rw [hmin]
    · rw [if_neg hc] at h
      by_cases hn : n < 1
      · rw [if_pos hn] at h
        cases h
      · rw [if_neg hn] at h
        obtain ⟨hyb, hshape⟩ := ih h
        refine ⟨hyb, ?_⟩
        have hdim : daysInMonth y m < n + 1 := by
          by_contra hcon
          exact hc ⟨hyb.1, hyb.2, by omega⟩
        have hmin : min n (daysInMonth y m) = min (n + 1) (daysInMonth y m) := by
          omega
        rw [hshape, hmin]

/-- The target (year, month) of `add_months` in normal form: it is the
pair at absolute month index `monthIndex dt + months`. -/
theorem add_months_target (dt : Date) (months : Int) (h1 : 1 ≤ dt.month)
    (h2 : dt.month ≤ 12) :
    dt.year + ((dt.month : Int) - 1 + months).fdiv 12 =
      indexYear (monthIndex dt + months) ∧
    ((((dt.month : Int) - 1 + months).fmod 12).toNat + 1) =
      indexMonth (monthIndex dt + months) := by
  unfold indexYear indexMonth monthIndex
  rw [Int.fdiv_eq_ediv _ (by norm_num), Int.fmod_eq_emod _ (by norm_num),
    Int.fdiv_eq_ediv _ (by norm_num), Int.fmod_eq_emod _ (by norm_num)]
  omega

/-- `add_months` on any date with a positive day: the result is the
normalized target month with the day clamped to that month's length. -/
theorem add_months_ok (dt : Date) (months : Int) (hday : 1 ≤ dt.day)
    (h1 : 1 ≤ dt.month) (h2 : dt.month ≤ 12)
    (hyy1 : 1 ≤ indexYear (monthIndex dt + months))
    (hyy2 : indexYear (monthIndex dt + months) ≤ 9999) :
    add_months dt months = .ok
      ⟨indexYear (monthIndex dt + months), indexMonth (monthIndex dt + months),
        min dt.day (daysInMonth (indexYear (monthIndex dt + months))
          (indexMonth (monthIndex dt + months)))⟩ := by
  obtain ⟨hy, hm⟩ := add_months_target dt months h1 h2
  show clampDay (dt.year + ((dt.month : Int) - 1 + months).fdiv 12)
    ((((dt.month : Int) - 1 + months).fmod 12).toNat + 1) dt.day = _
  rw [hy, hm]
  have hb := indexMonth_bounds (monthIndex dt + months)
  exact clampDay_ok hday
    (by have := daysInMonth_pos (y := indexYear (monthIndex dt + months)) hb.1 hb.2; omega)
    hyy1 hyy2

/-- `add_months` re-raises when the normalized target year is outside
`datetime`'s 1..9999 range: `replace` then fails for every day. -/
theorem add_months_err (dt : Date) (months : Int)
    (hy : ¬ (1 ≤ dt.year + ((dt.month : Int) - 1 + months).fdiv 12 ∧
      dt.year + ((dt.month : Int) - 1 + months).fdiv 12 ≤ 9999)) :
    add_months dt months = .error .invalidDate := by
  show clampDay (dt.year + ((dt.month : Int) - 1 + months).fdiv 12)
    ((((dt.month : Int) - 1 + months).fmod 12).toNat + 1) dt.day = _
  exact clampDay_err hy dt.day

theorem add_months_err_index (dt : Date) (months : Int) (hm1 : 1 ≤ dt.month)
    (hm2 : dt.month ≤ 12)
    (hy : ¬ (1 ≤ indexYear (monthIndex dt + months) ∧
      indexYear (monthIndex dt + months) ≤ 9999)) :
    add_months dt months = .error .invalidDate := by
  obtain ⟨hyeq, _⟩ := add_months_target dt months hm1 hm2
  apply add_months_err
  rw [hyeq]
  exact hy

/-- Inversion of a successful `add_months`: the result is exactly the
normalized target month with the day clamped. -/
theorem add_months_ok_inv {dt : Date} {months : Int} {d' : Date}
    (h : add_months dt months = .ok d') (hm1 : 1 ≤ dt.month)
    (hm2 : dt.month ≤ 12) :
    d' = ⟨indexYear (monthIndex dt + months), indexMonth (monthIndex dt + months),
      min dt.day (daysInMonth (indexYear (monthIndex dt + months))
        (indexMonth (monthIndex dt + months)))⟩ := by
  replace h : clampDay (dt.year + ((dt.month : Int) - 1 + months).fdiv 12)
      ((((dt.month : Int) - 1 + months).fmod 12).toNat + 1) dt.day = .ok d' := h
  obtain ⟨hyb, hshape⟩ := clampDay_ok_inv h
  obtain ⟨hyeq, hmeq⟩ := add_months_target dt months hm1 hm2
  rw [hshape, hyeq, hmeq]

/-- Successive month indices inside the loop stay within `datetime`'s
year range. -/
theorem indexYear_bounds {k : Int} (h1 : 13 ≤ k) (h2 : k ≤ 119999) :
    1 ≤ indexYear k ∧ indexYear k ≤ 9999 := by
  unfold indexYear
  rw [Int.fdiv_eq_ediv _ (by norm_num)]
  omega

/-- Unconditional shape of a successful `add_months`: the month index
advances by exactly `months` and the resulting month is in 1..12. -/
theorem add_months_shape {dt : Date} {months : Int} {d : Date}
    (h : add_months dt months = .ok d) :
    monthIndex d = monthIndex dt + months ∧ 1 ≤ d.month ∧ d.month ≤ 12 := by
  replace h : clampDay (dt.year + ((dt.month : Int) - 1 + months).fdiv 12)
      ((((dt.month : Int) - 1 + months).fmod 12).toNat + 1) dt.day = .ok d := h
  obtain ⟨hy, hm⟩ := clampDay_yearMonth h
  have hf := Int.fdiv_add_fmod ((dt.month : Int) - 1 + months) 12
  have h1 := Int.fmod_nonneg' ((dt.month : Int) - 1 + months) (b := 12) (by norm_num)
  have h2 := Int.fmod_lt_of_pos ((dt.month : Int) - 1 + months) (b := 12) (by norm_num)
  unfold monthIndex
  rw [hy, hm]
  omega

/-! ### The date comparison and the month index -/

theorem dateLe_iff (a b : Date) :
    dateLe a b = true ↔
      (a.year < b.year ∨ (a.year = b.year ∧ (a.month < b.month ∨
        (a.month = b.month ∧ a.day ≤ b.day)))) := by
  unfold dateLe
  split
  · simp; omega
  · split
    · simp; omega
    · split
      · simp; omega
      · split
        · simp; omega
        · simp; omega

theorem dateLe_monthIndex {a b : Date} (h : dateLe a b = true)
    (hm : a.month ≤ 12) : monthIndex a ≤ monthIndex b := by
  rw [dateLe_iff] at h
  unfold monthIndex
  omega

theorem dateLe_true_of_index_lt {a b : Date} (ha1 : 1 ≤ a.month)
    (ha2 : a.month ≤ 12) (hb1 : 1 ≤ b.month) (hb2 : b.month ≤ 12)
    (h : monthIndex a < monthIndex b) : dateLe a b = true := by
  rw [dateLe_iff]
  unfold monthIndex at h
  omega

theorem dateLe_false_of_index_gt {a b : Date} (ha2 : a.month ≤ 12)
    (hb1 : 1 ≤ b.month) (h : monthIndex b < monthIndex a) :
    dateLe a b = false := by
  cases hc : dateLe a b with
  | false => rfl
  | true =>
    exfalso
    rw [dateLe_iff] at hc
    unfold monthIndex at h
    omega

theorem yearMonth_eq_of_index_eq {a b : Date} (ha1 : 1 ≤ a.month)
    (ha2 : a.month ≤ 12) (hb1 : 1 ≤ b.month) (hb2 : b.month ≤ 12)
    (h : monthIndex a = monthIndex b) : a.year = b.year ∧ a.month = b.month := by
  unfold monthIndex at h
  omega

/-! ### `generate_months` -/

/-- The `while current <= end` loop of `generate_months`: emit
`current.strftime('%Y-%m')` and step by `add_months(current, 1)`; an
exception from `add_months` propagates.  Termination: each successful
`add_months(..., 1)` advances the month index by one (and lands on a
month in 1..12), while the loop guard bounds the index by the end date's. -/
def genLoop (endDate : Date) (current : Date) : Except PyError (List String) :=
  if h : dateLe current endDate = true then
    match hadd : add_months current 1 with
    | .error err => .error err
    | .ok next =>
      match genLoop endDate next with
      | .error err => .error err
      | .ok rest => .ok (strfYM current :: rest)
  else .ok []
termination_by
  (monthIndex endDate + 1 - monthIndex current).toNat +
    (if current.month ≤ 12 then 0 else 1)
decreasing_by
  obtain ⟨hidx, hm1, hm2⟩ := add_months_shape hadd
  by_cases hcm : current.month ≤ 12
  · have hle := dateLe_monthIndex h hcm
    rw [if_pos hm2, if_pos hcm]
    omega
  · rw [if_pos hm2, if_neg hcm]
    omega

/-- `generate_months` from `src/periods.py`.  The strict
`strptime('%Y-%m-%d')` parse of the arguments and the substitution of the
current date for an absent end date are modelled by taking the two parsed
dates directly (the claims' hypotheses that the inputs are well-formed
dates become `ValidDate` hypotheses). -/
def generate_months (start : Date) (endDate : Date) :
    Except PyError (List String) :=
  genLoop endDate start

/-- The running day-of-month of the loop of `generate_months`, `k` steps
after a date with day `day0` and month index `i`: the day is clamped by
each successive month's length. -/
def clampedDays (day0 : Nat) (i : Int) : Nat → Nat
  | 0 => day0
  | k + 1 =>
    clampedDays (min day0 (daysInMonth (indexYear (i + 1)) (indexMonth (i + 1))))
      (i + 1) k

/-- The number of tokens `generate_months` emits from `c` to `e`: every
month strictly before `e`'s month, plus `e`'s month exactly when the
clamped running day does not exceed `e.day`. -/
def monthCount (c e : Date) : Nat :=
  if monthIndex e < monthIndex c then 0
  else
    (monthIndex e - monthIndex c).toNat +
      (if clampedDays c.day (monthIndex c) (monthIndex e - monthIndex c).toNat
          ≤ e.day then 1
       else 0)

theorem clampedDays_le (k : Nat) :
    ∀ (day0 : Nat) (i : Int), clampedDays day0 i k ≤ day0 := by
  induction k with
  | zero => intro day0 i; exact Nat.le_refl _
  | succ n ih =>
    intro day0 i
    have := ih (min day0 (daysInMonth (indexYear (i + 1)) (indexMonth (i + 1)))) (i + 1)
    unfold clampedDays
    omega

theorem clampedDays_pos (k : Nat) :
    ∀ (day0 : Nat) (i : Int), 1 ≤ day0 → 1 ≤ clampedDays day0 i k := by
  induction k with
  | zero => intro day0 i h; exact h
  | succ n ih =>
    intro day0 i h
    unfold clampedDays
    have hb := indexMonth_bounds (i + 1)
    have := daysInMonth_pos (y := indexYear (i + 1)) hb.1 hb.2
    exact ih _ _ (by omega)

theorem strfYM_eq_token {d : Date} (h1 : 1 ≤ d.month) (h2 : d.month ≤ 12) :
    strfYM d = monthTokenOfIndex (monthIndex d) := by
  obtain ⟨hy, hm⟩ := indexYear_indexMonth_eq (y := d.year) h1 h2
  unfold strfYM monthTokenOfIndex monthIndex
  rw [hy, hm]

/-- Recomposing a month index from its year and month. -/
theorem index_recompose (k : Int) :
    indexYear k * 12 + (indexMonth k : Int) - 1 = k := by
  unfold indexYear indexMonth
  have hf := Int.fdiv_add_fmod k 12
  have h1 := Int.fmod_nonneg' k (b := 12) (by norm_num)
  omega

theorem monthIndex_mk (k : Int) (day : Nat) :
    monthIndex ⟨indexYear k, indexMonth k, day⟩ = k := by
  show indexYear k * 12 + (indexMonth k : Int) - 1 = k
  exact index_recompose k

theorem monthTokenRange_succ (k : Int) (n : Nat) :
    monthTokenRange k (n + 1) =
      monthTokenOfIndex k :: monthTokenRange (k + 1) n := by
  unfold monthTokenRange
  rw [List.range_succ_eq_map, List.map_cons, List.map_map]
  congr 1
  · norm_num
  · apply List.map_congr_left
    intro i _
    show monthTokenOfIndex (k + ((Nat.succ i : Nat) : Int)) =
      monthTokenOfIndex (k + 1 + (i : Int))
    congr 1
    push_cast
    omega

theorem dateLe_day_iff {a b : Date} (h1 : a.year = b.year)
    (h2 : a.month = b.month) : dateLe a b = true ↔ a.day ≤ b.day := by
  rw [dateLe_iff]
  omega

/-- Month-index bounds of a valid `datetime` value; 119999 is the index
of December 9999, the last month `datetime` can represent. -/
theorem monthIndex_le_max {d : Date} (hd : ValidDate d) :
    monthIndex d ≤ 119999 := by
  obtain ⟨h1, h2, h3, h4, h5, h6⟩ := hd
  unfold monthIndex
  omega

theorem monthIndex_ge_min {d : Date} (hd : ValidDate d) :
    12 ≤ monthIndex d := by
  obtain ⟨h1, h2, h3, h4, h5, h6⟩ := hd
  unfold monthIndex
  omega

theorem monthIndex_max_iff {d : Date} (hd : ValidDate d) :
    monthIndex d = 119999 ↔ d.year = 9999 ∧ d.month = 12 := by
  obtain ⟨h1, h2, h3, h4, h5, h6⟩ := hd
  unfold monthIndex
  omega

/-- The loop's failure condition: the final month the loop emits (per
`monthCount`) is December 9999 (month index 119999), so the step past it
asks `replace` for year 10000 and `add_months` re-raises, discarding the
collected list. -/
def genOverflow (c e : Date) : Prop :=
  monthIndex e = 119999 ∧
    monthCount c e = (monthIndex e - monthIndex c).toNat + 1

instance (c e : Date) : Decidable (genOverflow c e) := by
  unfold genOverflow
  infer_instance

/-- Closed form of the `generate_months` loop: starting from a valid date
`c` with a valid end date `e`, the loop emits the canonical tokens of
`monthCount c e` consecutive months starting at `c`'s month — unless that
range ends exactly at December 9999, in which case the step past the last
month overflows `datetime`'s year range and the error propagates. -/
theorem genLoop_spec (e : Date) (he : ValidDate e) :
    ∀ (n : Nat) (c : Date), ValidDate c →
      (monthIndex e - monthIndex c).toNat = n →
      genLoop e c = if genOverflow c e then .error PyError.invalidDate
        else .ok (monthTokenRange (monthIndex c) (monthCount c e)) := by
  intro n
  induction n with
  | zero =>
    intro c hc hn
    have hie_le : monthIndex e ≤ 119999 := monthIndex_le_max he
    have hic_ge : 12 ≤ monthIndex c := monthIndex_ge_min hc
    obtain ⟨hcm1, hcm2, hcd1, hcd2, hcy1, hcy2⟩ := hc
    obtain ⟨hem1, hem2, hed1, hed2, hey1, hey2⟩ := he
    by_cases hord : monthIndex e < monthIndex c
    · rw [genLoop.eq_def,
        dif_neg (by rw [dateLe_false_of_index_gt hcm2 hem1 hord]; simp)]
      have hcnt : monthCount c e = 0 := by
        unfold monthCount
        rw [if_pos hord]
      rw [if_neg (by
        intro hov
        have hx := hov.2
        rw [hcnt] at hx
        omega)]
      rw [hcnt]
      rfl
    · have heq : monthIndex c = monthIndex e := by omega
      obtain ⟨hy, hm⟩ :=
        yearMonth_eq_of_index_eq hcm1 hcm2 hem1 hem2 heq
      by_cases hday : c.day ≤ e.day
      · have htrue : dateLe c e = true := (dateLe_day_iff hy hm).mpr hday
        rw [genLoop.eq_def, dif_pos htrue]
        have hcnt : monthCount c e = 1 := by
          unfold monthCount
          rw [if_neg hord, hn]
          rw [show clampedDays c.day (monthIndex c) 0 = c.day from rfl,
            if_pos hday]
        by_cases hmax : monthIndex e = 119999
        · have herr : add_months c 1 = .error PyError.invalidDate := by
            apply add_months_err_index c 1 hcm1 hcm2
            intro hcon
            have h10k : indexYear (monthIndex c + 1) = 10000 := by
              rw [heq, hmax]
              decide
            rw [h10k] at hcon
            omega
          split
          · next err heq' =>
            rw [herr] at heq'
            injection heq' with heq'
            have hovc : genOverflow c e := ⟨hmax, by rw [hcnt, hn]⟩
            rw [if_pos hovc]
            rw [← heq']
          · next nx heq' =>
            rw [herr] at heq'
            cases heq'
        · have hstep := indexYear_bounds (k := monthIndex c + 1)
            (by omega) (by omega)
          have hadd := add_months_ok c 1 hcd1 hcm1 hcm2 hstep.1 hstep.2
          split
          · next err heq' => rw [hadd] at heq'; cases heq'
          · next nx heq' =>
            rw [hadd] at heq'
            injection heq' with heq'
            subst heq'
            have hb := indexMonth_bounds (monthIndex c + 1)
            have hstop : dateLe
                ⟨indexYear (monthIndex c + 1), indexMonth (monthIndex c + 1),
                  min c.day (daysInMonth (indexYear (monthIndex c + 1))
                    (indexMonth (monthIndex c + 1)))⟩ e = false := by
              apply dateLe_false_of_index_gt hb.2 hem1
              rw [monthIndex_mk]
              omega
            rw [genLoop.eq_def, dif_neg (by rw [hstop]; simp)]
            rw [if_neg (fun hov => hmax hov.1)]
            rw [hcnt, monthTokenRange_succ, strfYM_eq_token hcm1 hcm2]
            rfl
      · have hfalse : dateLe c e = false := by
          cases hle : dateLe c e with
          | false => rfl
          | true => exact absurd ((dateLe_day_iff hy hm).mp hle) hday
        rw [genLoop.eq_def, dif_neg (by rw [hfalse]; simp)]
        have hcnt : monthCount c e = 0 := by
          unfold monthCount
          rw [if_neg hord, hn]
          rw [show clampedDays c.day (monthIndex c) 0 = c.day from rfl,
            if_neg hday]
        rw [if_neg (by
          intro hov
          have hx := hov.2
          rw [hcnt] at hx
          omega)]
        rw [hcnt]
        rfl
  | succ n ih =>
    intro c hc hn
    have hie_le : monthIndex e ≤ 119999 := monthIndex_le_max he
    have hic_ge : 12 ≤ monthIndex c := monthIndex_ge_min hc
    obtain ⟨hcm1, hcm2, hcd1, hcd2, hcy1, hcy2⟩ := hc
    have hlt : monthIndex c < monthIndex e := by omega
    have htrue := dateLe_true_of_index_lt hcm1 hcm2 he.1 he.2.1 hlt
    rw [genLoop.eq_def, dif_pos htrue]
    have hstep := indexYear_bounds (k := monthIndex c + 1) (by omega) (by omega)
    have hadd := add_months_ok c 1 hcd1 hcm1 hcm2 hstep.1 hstep.2
    split
    · next err heq' => rw [hadd] at heq'; cases heq'
    · next nx heq' =>
      rw [hadd] at heq'
      injection heq' with heq'
      subst heq'
      have hb := indexMonth_bounds (monthIndex c + 1)
      have hdimpos : 28 ≤ daysInMonth (indexYear (monthIndex c + 1))
          (indexMonth (monthIndex c + 1)) :=
        daysInMonth_pos hb.1 hb.2
      have hidx : monthIndex
          ⟨indexYear (monthIndex c + 1), indexMonth (monthIndex c + 1),
            min c.day (daysInMonth (indexYear (monthIndex c + 1))
              (indexMonth (monthIndex c + 1)))⟩ = monthIndex c + 1 :=
        monthIndex_mk _ _
      have hvalid : ValidDate
          ⟨indexYear (monthIndex c + 1), indexMonth (monthIndex c + 1),
            min c.day (daysInMonth (indexYear (monthIndex c + 1))
              (indexMonth (monthIndex c + 1)))⟩ := by
        refine ⟨hb.1, hb.2, ?_, ?_, ?_, ?_⟩
        · show 1 ≤ min c.day (daysInMonth (indexYear (monthIndex c + 1))
            (indexMonth (monthIndex c + 1)))
          omega
        · show min c.day (daysInMonth (indexYear (monthIndex c + 1))
            (indexMonth (monthIndex c + 1))) ≤ _
          exact Nat.min_le_right _ _
        · show 1 ≤ indexYear (monthIndex c + 1)
          exact hstep.1
        · show indexYear (monthIndex c + 1) ≤ 9999
          exact hstep.2
      have hrec := ih _ hvalid (by rw [hidx]; omega)
      rw [hrec, hidx]
      have hcount : monthCount c e = monthCount
          ⟨indexYear (monthIndex c + 1), indexMonth (monthIndex c + 1),
            min c.day (daysInMonth (indexYear (monthIndex c + 1))
              (indexMonth (monthIndex c + 1)))⟩ e + 1 := by
        have h2 : (monthIndex e - (monthIndex c + 1)).toNat = n := by omega
        simp only [monthCount, hidx, hn, h2]
        rw [if_neg (show ¬ monthIndex e < monthIndex c by omega),
          if_neg (show ¬ monthIndex e < monthIndex c + 1 by omega)]
        have hclamp : clampedDays c.day (monthIndex c) (n + 1) =
            clampedDays (min c.day (daysInMonth (indexYear (monthIndex c + 1))
              (indexMonth (monthIndex c + 1)))) (monthIndex c + 1) n := rfl
        rw [hclamp]
        by_cases hq : clampedDays (min c.day (daysInMonth (indexYear (monthIndex c + 1))
            (indexMonth (monthIndex c + 1)))) (monthIndex c + 1) n ≤ e.day
        · rw [if_pos hq]
        · rw [if_neg hq]
      by_cases hov : genOverflow
          ⟨indexYear (monthIndex c + 1), indexMonth (monthIndex c + 1),
            min c.day (daysInMonth (indexYear (monthIndex c + 1))
              (indexMonth (monthIndex c + 1)))⟩ e
      · rw [if_pos hov]
        have hov2 : monthCount
            ⟨indexYear (monthIndex c + 1), indexMonth (monthIndex c + 1),
              min c.day (daysInMonth (indexYear (monthIndex c + 1))
                (indexMonth (monthIndex c + 1)))⟩ e =
            (monthIndex e - (monthIndex c + 1)).toNat + 1 := by
          have hx := hov.2
          rw [hidx] at hx
          exact hx
        have hovc : genOverflow c e := ⟨hov.1, by rw [hcount, hov2, hn]; omega⟩
        rw [if_pos hovc]
      · rw [if_neg hov]
        rw [if_neg (by
          intro hovc
          apply hov
          refine ⟨hovc.1, ?_⟩
          rw [hidx]
          have h2' := hovc.2
          rw [hcount, hn] at h2'
          omega)]
        rw [hcount, monthTokenRange_succ, strfYM_eq_token hcm1 hcm2]

/-- Closed form of `generate_months` on valid dates. -/
theorem generate_months_spec (c e : Date) (hc : ValidDate c)
    (he : ValidDate e) :
    generate_months c e = if genOverflow c e then .error PyError.invalidDate
      else .ok (monthTokenRange (monthIndex c) (monthCount c e)) :=
  genLoop_spec e he _ c hc rfl

/-- The common case: when the range does not end at December 9999,
`generate_months` succeeds with the canonical token range. -/
theorem generate_months_spec_ok (c e : Date) (hc : ValidDate c)
    (he : ValidDate e) (hne : monthIndex e ≠ 119999) :
    generate_months c e =
      .ok (monthTokenRange (monthIndex c) (monthCount c e)) := by
  rw [generate_months_spec c e hc he, if_neg (fun hov => hne hov.1)]
/-! ### `parse_period` -/

/-- Start date for `all` period queries. -/
def DATA_START_DATE : String := "2022-01-01"

/-- The `quarters` dict of `parse_period`: fixed month-day ranges. -/
def quarters (q : String) : Option (String × String) :=
  if q = "q1" then some ("01-01", "03-31")
  else if q = "q2" then some ("04-01", "06-30")
  else if q = "q3" then some ("07-01", "09-30")
  else if q = "q4" then some ("10-01", "12-31")
  else none

/-- The validation performed by the `datetime(year, month, day)`
constructor: year in `MINYEAR..MAXYEAR` = 1..9999, month 1..12, and a day
the month has. -/
def datetimeCtor (y : Int) (m : Nat) (d : Nat) : Except PyError Date :=
  if 1 ≤ y ∧ y ≤ 9999 ∧ 1 ≤ m ∧ m ≤ 12 ∧ 1 ≤ d ∧ d ≤ daysInMonth y m then
    .ok ⟨y, m, d⟩
  else .error .valueDateCtor

/-- `datetime - timedelta(days=1)`. -/
def pyDateSubDay (d : Date) : Date :=
  if 2 ≤ d.day then ⟨d.year, d.month, d.day - 1⟩
  else if 2 ≤ d.month then ⟨d.year, d.month - 1, daysInMonth d.year (d.month - 1)⟩
  else ⟨d.year - 1, 12, 31⟩

/-- `parse_period` from `src/periods.py`.  The ambient `datetime.now()`
read is passed explicitly as `today`; only its year is consulted. -/
def parse_period (today : Date) (period0 : String) :
    Except PyError (String × Option String) :=
  let current_year : Int := today.year
  let period : String := pyStrip (pyLower period0)
  if period = "all" then .ok (DATA_START_DATE, none)
  else if period = "ytd" then .ok (intStr current_year ++ "-01-01", none)
  else
    match quarters period with
    | some (s, e) =>
      .ok (intStr current_year ++ "-" ++ s,
        some (intStr current_year ++ "-" ++ e))
    | none =>
      if pyIsDigit period && period.length == 4 then
        if pyIntVal period == current_year then
          .ok (intStr (pyIntVal period) ++ "-01-01", none)
        else
          .ok (intStr (pyIntVal period) ++ "-01-01",
            some (intStr (pyIntVal period) ++ "-12-31"))
      else if pyContains period '-' && period.length == 7 then
        match pySplit period '-' with
        | [year, month] =>
          if pyIsDigit month then
            if pyIntVal month == 12 then
              .ok (year ++ "-" ++ month ++ "-01", some (year ++ "-12-31"))
            else if pyIntValid year then
              match datetimeCtor (pyIntVal year) ((pyIntVal month).toNat + 1) 1 with
              | .ok nm =>
                .ok (year ++ "-" ++ month ++ "-01",
                  some (year ++ "-" ++ month ++ "-" ++ pad2 ((pyDateSubDay nm).day)))
              | .error e => .error e
            else .error .valueInt
          else if pyHeadIs month 'q' && pyIsDigit (pyDrop1 month) then
            match quarters month with
            | some (s, e) => .ok (year ++ "-" ++ s, some (year ++ "-" ++ e))
            | none => .error (.invalidPeriodFormat period)
          else .error (.invalidPeriodFormat period)
        | _ => .error .valueUnpack
      else .error (.invalidPeriodFormat period)

/-- Formalizes "an ISO `YYYY-MM-DD` string denoting a valid Gregorian
calendar date" (used to state the parser's output invariant). -/
def isValidIsoDate (s : String) : Bool :=
  match pySplit s '-' with
  | [y, m, d] =>
    (y.length == 4) && pyIsDigit y && (m.length == 2) && pyIsDigit m &&
    (d.length == 2) && pyIsDigit d &&
    decide (1 ≤ digitsVal m) && decide (digitsVal m ≤ 12) &&
    decide (1 ≤ digitsVal d) &&
    decide (digitsVal d ≤ daysInMonth (digitsVal y : Int) (digitsVal m))
  | _ => false

/-- The normalized tokens on which `parse_period` reaches its final
`raise ValueError(f"Invalid period format: ...")`: none of the fixed
words, not a bare quarter, not a four-digit year, and — when it is a
length-7 hyphenated string — split at a single hyphen into a second
segment that is neither all digits nor a quarter key. -/
def invalidFormatShape (q : String) : Bool :=
  if q = "all" then false
  else if q = "ytd" then false
  else
    match quarters q with
    | some _ => false
    | none =>
      if pyIsDigit q && q.length == 4 then false
      else if pyContains q '-' && q.length == 7 then
        match pySplit q '-' with
        | [_, month] => !(pyIsDigit month) && (quarters month).isNone
        | _ => false
      else true

/-! ### Claim theorems: `add_months` (C5, C6, C7) -/

/-- Counterexample to claim C5 as stated: for the valid Gregorian date
9999-12-31 and m = 1, `add_months` does not return the normalized date
10000-01-31 — `replace` rejects year 10000 at every day and the loop
re-raises. -/
theorem c5_counterexample :
    ValidDate ⟨9999, 12, 31⟩ ∧
      add_months ⟨9999, 12, 31⟩ 1 = .error PyError.invalidDate := by
  constructor
  · decide
  · rfl

/-- Claim C5 (corrected): for every valid date `d` and integer `m` whose
normalized target year lies within `datetime`'s 1..9999 range,
`add_months d m` returns the date whose (year, month) is obtained by
adding `m` to `d`'s zero-based month index and normalizing with floor
division and modulo, and whose day is `d`'s day when that day exists in
the target month, else the last valid day of the target month. -/
theorem c5_add_months_value (d : Date) (m : Int) (hd : ValidDate d)
    (hty1 : 1 ≤ indexYear (monthIndex d + m))
    (hty2 : indexYear (monthIndex d + m) ≤ 9999) :
    add_months d m = .ok
      ⟨d.year + ((d.month : Int) - 1 + m).fdiv 12,
        (((d.month : Int) - 1 + m).fmod 12).toNat + 1,
        if d.day ≤ daysInMonth (d.year + ((d.month : Int) - 1 + m).fdiv 12)
            ((((d.month : Int) - 1 + m).fmod 12).toNat + 1)
        then d.day
        else daysInMonth (d.year + ((d.month : Int) - 1 + m).fdiv 12)
            ((((d.month : Int) - 1 + m).fmod 12).toNat + 1)⟩ := by
  obtain ⟨h1, h2, h3, h4, h5, h6⟩ := hd
  obtain ⟨hyeq, hmeq⟩ := add_months_target d m h1 h2
  show clampDay (d.year + ((d.month : Int) - 1 + m).fdiv 12)
    ((((d.month : Int) - 1 + m).fmod 12).toNat + 1) d.day = _
  have ha := Int.fmod_nonneg' ((d.month : Int) - 1 + m) (b := 12) (by norm_num)
  have hb := Int.fmod_lt_of_pos ((d.month : Int) - 1 + m) (b := 12) (by norm_num)
  have hdim : 28 ≤ daysInMonth (d.year + ((d.month : Int) - 1 + m).fdiv 12)
      ((((d.month : Int) - 1 + m).fmod 12).toNat + 1) :=
    daysInMonth_pos (by omega) (by omega)
  rw [clampDay_ok h3 (by omega) (by rw [hyeq]; exact hty1)
    (by rw [hyeq]; exact hty2)]
  rw [Nat.min_def]

/-- Witness for C5 (amended): the spec's own example, January 31 of the
2024 leap year plus one month clamps to February 29. -/
theorem c5_witness : add_months ⟨2024, 1, 31⟩ 1 = .ok ⟨2024, 2, 29⟩ := by
  rw [c5_add_months_value ⟨2024, 1, 31⟩ 1 (by decide) (by decide) (by decide)]
  rfl

/-- Counterexample to claim C6 as stated: the day-underflow re-raise IS
reachable on valid input — for 9999-01-31 plus 12 months, `replace`
rejects year 10000 for days 31 down to 1, the loop decrements to below 1
and re-raises. -/
theorem c6_counterexample :
    ValidDate ⟨9999, 1, 31⟩ ∧
      add_months ⟨9999, 1, 31⟩ 12 = .error PyError.invalidDate := by
  constructor
  · decide
  · rfl

/-- Claim C6 (corrected): the `InvalidDate` day-underflow re-raise is
unreachable on valid input provided the normalized target year lies
within `datetime`'s 1..9999 range; with an out-of-range target year the
loop does reach it. -/
theorem c6_add_months_total (d : Date) (m : Int) (hd : ValidDate d)
    (hty1 : 1 ≤ indexYear (monthIndex d + m))
    (hty2 : indexYear (monthIndex d + m) ≤ 9999) :
    add_months d m ≠ .error PyError.invalidDate := by
  intro hcontra
  rw [add_months_ok d m hd.2.2.1 hd.1 hd.2.1 hty1 hty2] at hcontra
  exact Except.noConfusion hcontra

/-- Witness for C6 (amended) at a concrete input (a backward jump of 25
months). -/
theorem c6_witness : add_months ⟨2023, 12, 1⟩ (-25) ≠ .error PyError.invalidDate :=
  c6_add_months_total ⟨2023, 12, 1⟩ (-25) (by decide) (by decide) (by decide)

/-- Claim C7 (confirmed): adding `n` months and then `-n` months returns
to the original date whenever no day clamping occurred in either step
(clamping in a step means the step changed the day-of-month). -/
theorem c7_add_months_roundtrip (d : Date) (n : Int) (d1 d2 : Date)
    (hd : ValidDate d)
    (h1 : add_months d n = .ok d1) (hnc1 : d1.day = d.day)
    (h2 : add_months d1 (-n) = .ok d2) (hnc2 : d2.day = d1.day) :
    d2 = d := by
  obtain ⟨hm1, hm2, hd1, hd2', hy1, hy2⟩ := hd
  have h1' := add_months_ok_inv h1 hm1 hm2
  have hb := indexMonth_bounds (monthIndex d + n)
  have hd1day : d1.day = d.day := hnc1
  have hd1idx : monthIndex d1 = monthIndex d + n := by
    rw [h1']; exact monthIndex_mk _ _
  have hd1m : 1 ≤ d1.month ∧ d1.month ≤ 12 := by rw [h1']; exact hb
  have h2' := add_months_ok_inv h2 hd1m.1 hd1m.2
  rw [hd1idx] at h2'
  have hback : monthIndex d + n + -n = monthIndex d := by omega
  rw [hback] at h2'
  obtain ⟨hy, hm⟩ := indexYear_indexMonth_eq (y := d.year) hm1 hm2
  have hyd : indexYear (monthIndex d) = d.year := hy
  have hmd : indexMonth (monthIndex d) = d.month := hm
  rw [hyd, hmd, hd1day] at h2'
  have hmin : min d.day (daysInMonth d.year d.month) = d.day := by omega
  rw [hmin] at h2'
  rw [h2']

/-- Witness for C7: two months forward and back from 2025-01-15, with no
clamping in either step. -/
theorem c7_witness :
    add_months ⟨2025, 1, 15⟩ 2 = .ok ⟨2025, 3, 15⟩ ∧
      add_months ⟨2025, 3, 15⟩ (-2) = .ok ⟨2025, 1, 15⟩ ∧
      (⟨2025, 1, 15⟩ : Date) = ⟨2025, 1, 15⟩ :=
  ⟨rfl, rfl,
    c7_add_months_roundtrip ⟨2025, 1, 15⟩ 2 ⟨2025, 3, 15⟩ ⟨2025, 1, 15⟩
      (by decide) rfl rfl rfl rfl⟩

/-! ### Claim theorems: `generate_months` (C1, C8, C9, C10) -/

/-- Counterexample to claim C1 as stated: `2025-01-20 <= 2025-03-10`,
yet `generate_months` omits the end month `2025-03`, because the running
date `2025-03-20` (day 20 carried from the start date) exceeds the end
date `2025-03-10`.  The claim's "regardless of the day-of-month of either
bound" is false. -/
theorem c1_counterexample :
    dateLe ⟨2025, 1, 20⟩ ⟨2025, 3, 10⟩ = true ∧
      generate_months ⟨2025, 1, 20⟩ ⟨2025, 3, 10⟩ = .ok ["2025-01", "2025-02"] := by
  constructor
  · decide
  · rw [generate_months_spec_ok _ _ (by decide) (by decide) (by decide)]
    rfl

/-- Claim C1 (corrected): under the additional hypotheses that the start
date's day-of-month does not exceed the end date's and the end month is
not December 9999 (where the step past the end overflows `datetime`'s
year range), the output is exactly one canonical token per calendar month
from the start month through the end month inclusive. -/
theorem c1_boundary_months (c e : Date) (hc : ValidDate c) (he : ValidDate e)
    (hle : dateLe c e = true) (hday : c.day ≤ e.day)
    (hcap : ¬ (e.year = 9999 ∧ e.month = 12)) :
    generate_months c e =
      .ok (monthTokenRange (monthIndex c)
        ((monthIndex e - monthIndex c).toNat + 1)) := by
  have hord : ¬ monthIndex e < monthIndex c := by
    have := dateLe_monthIndex hle hc.2.1
    omega
  have hcnt : monthCount c e = (monthIndex e - monthIndex c).toNat + 1 := by
    unfold monthCount
    rw [if_neg hord,
      if_pos (le_trans (clampedDays_le _ _ _) hday)]
  rw [generate_months_spec_ok c e hc he
    (fun h119 => hcap ((monthIndex_max_iff he).mp h119)), hcnt]

/-- Witness for C1 (amended): the spec's example range expands to the
three boundary-inclusive months. -/
theorem c1_witness :
    generate_months ⟨2025, 1, 15⟩ ⟨2025, 3, 20⟩ =
      .ok ["2025-01", "2025-02", "2025-03"] := by
  rw [c1_boundary_months ⟨2025, 1, 15⟩ ⟨2025, 3, 20⟩ (by decide) (by decide)
    (by decide) (by decide) (by decide)]
  rfl

/-- Claim C8 (confirmed): any successful output of `generate_months` is
the canonical token sequence of consecutive month indices starting at the
start date's month — i.e. contiguous, strictly increasing month by month,
with no gaps or duplicates. -/
theorem c8_months_contiguous (c e : Date) (ms : List String)
    (hc : ValidDate c) (he : ValidDate e)
    (h : generate_months c e = .ok ms) :
    ms = monthTokenRange (monthIndex c) ms.length := by
  rw [generate_months_spec c e hc he] at h
  by_cases hov : genOverflow c e
  · rw [if_pos hov] at h
    cases h
  rw [if_neg hov] at h
  injection h with h
  rw [← h]
  have hlen : (monthTokenRange (monthIndex c) (monthCount c e)).length =
      monthCount c e := by
    unfold monthTokenRange
    rw [List.length_map, List.length_range]
  rw [hlen]

/-- Witness for C8: the four months of the spec's second example are the
canonical contiguous range starting at 2024-11. -/
theorem c8_witness :
    ["2024-11", "2024-12", "2025-01", "2025-02"] =
      monthTokenRange (monthIndex ⟨2024, 11, 1⟩) 4 :=
  c8_months_contiguous ⟨2024, 11, 1⟩ ⟨2025, 2, 15⟩
    ["2024-11", "2024-12", "2025-01", "2025-02"] (by decide) (by decide)
    (by
      rw [generate_months_spec_ok _ _ (by decide) (by decide) (by decide)]
      rfl)

/-- Counterexample to claim C9 as stated: both bounds are valid Gregorian
dates, yet `generate_months` raises rather than returning any list: the
step past December 9999 asks `datetime.replace` for year 10000, the day
clamp decrements to 0 and `add_months` re-raises `ValueError`. -/
theorem c9_counterexample :
    ValidDate ⟨9999, 12, 1⟩ ∧ ValidDate ⟨9999, 12, 15⟩ ∧
      generate_months ⟨9999, 12, 1⟩ ⟨9999, 12, 15⟩ =
        .error PyError.invalidDate := by
  refine ⟨by decide, by decide, ?_⟩
  have hov : genOverflow ⟨9999, 12, 1⟩ ⟨9999, 12, 15⟩ := by decide
  rw [generate_months_spec _ _ (by decide) (by decide), if_pos hov]

/-- Claim C9 (corrected): whenever the effective end month is not
December 9999, `generate_months` terminates with a finite `.ok` list; and
every successful output (for any valid bounds) has length at most the
inclusive number of calendar months between start and effective end.  At
a December-9999 end the loop's step past the end month instead overflows
`datetime`'s year range and the call raises. -/
theorem c9_generate_months_bounded (c e : Date) (hc : ValidDate c)
    (he : ValidDate e) :
    (¬ (e.year = 9999 ∧ e.month = 12) →
      (generate_months c e).toOption.isSome = true) ∧
      ∀ ms, generate_months c e = .ok ms →
        ms.length ≤ (monthIndex e - monthIndex c + 1).toNat := by
  constructor
  · intro hcap
    rw [generate_months_spec_ok c e hc he
      (fun h119 => hcap ((monthIndex_max_iff he).mp h119))]
    rfl
  · intro ms h
    rw [generate_months_spec c e hc he] at h
    by_cases hov : genOverflow c e
    · rw [if_pos hov] at h
      cases h
    rw [if_neg hov] at h
    injection h with h
    rw [← h]
    have hlen : (monthTokenRange (monthIndex c) (monthCount c e)).length =
        monthCount c e := by
      unfold monthTokenRange
      rw [List.length_map, List.length_range]
    rw [hlen]
    unfold monthCount
    by_cases hord : monthIndex e < monthIndex c
    · rw [if_pos hord]
      omega
    · rw [if_neg hord]
      by_cases hcl : clampedDays c.day (monthIndex c)
          (monthIndex e - monthIndex c).toNat ≤ e.day
      · rw [if_pos hcl]; omega
      · rw [if_neg hcl]; omega

/-- Witness for C9 at a concrete input. -/
theorem c9_witness :
    (generate_months ⟨2025, 1, 1⟩ ⟨2025, 3, 31⟩).toOption.isSome = true :=
  (c9_generate_months_bounded ⟨2025, 1, 1⟩ ⟨2025, 3, 31⟩ (by decide)
    (by decide)).1 (by decide)

/-- Claim C10 (confirmed): when the start date is strictly after the end
date, the loop guard fails immediately and the empty list is returned
(no failure). -/
theorem c10_empty_when_reversed (c e : Date) (hc : ValidDate c)
    (he : ValidDate e) (hge : dateLe e c = true) (hne : c ≠ e) :
    generate_months c e = .ok [] := by
  have hfalse : dateLe c e = false := by
    cases hle2 : dateLe c e with
    | false => rfl
    | true =>
      exfalso
      rw [dateLe_iff] at hle2 hge
      apply hne
      have hy : c.year = e.year := by omega
      have hm : c.month = e.month := by omega
      have hd : c.day = e.day := by omega
      cases c
      cases e
      simp_all
  unfold generate_months
  rw [genLoop.eq_def, dif_neg (by rw [hfalse]; simp)]

/-- Witness for C10: May 1 to April 30 of the same year yields `[]`. -/
theorem c10_witness : generate_months ⟨2025, 5, 1⟩ ⟨2025, 4, 30⟩ = .ok [] :=
  c10_empty_when_reversed ⟨2025, 5, 1⟩ ⟨2025, 4, 30⟩ (by decide) (by decide)
    (by decide) (by decide)

/-! ### String lemmas for the parser claims -/

theorem stringMk_toList (s : String) : String.mk s.toList = s := rfl

theorem toList_append3 (y m : String) :
    (y ++ "-" ++ m).toList = y.toList ++ '-' :: m.toList := by
  show (y.data ++ "-".data ++ m.data) = y.data ++ '-' :: m.data
  simp

theorem dropWhile_eq_self_of_all {l : List Char}
    (h : ∀ c ∈ l, pyWhite c = false) : l.dropWhile pyWhite = l := by
  cases l with
  | nil => rfl
  | cons a t =>
    rw [List.dropWhile_cons, if_neg]
    rw [h a (by simp)]
    simp

theorem pyStrip_eq_self {s : String}
    (h : ∀ c ∈ s.toList, pyWhite c = false) : pyStrip s = s := by
  unfold pyStrip
  rw [dropWhile_eq_self_of_all h,
    dropWhile_eq_self_of_all (by intro c hc; exact h c (List.mem_reverse.mp hc)),
    List.reverse_reverse, stringMk_toList]

theorem pyCharLower_digit {c : Char} (h : pyDigit c = true) :
    pyCharLower c = c := by
  unfold pyDigit at h
  unfold pyCharLower
  rw [if_neg]
  simp at h
  omega

theorem pyLower_eq_self {s : String}
    (h : ∀ c ∈ s.toList, pyCharLower c = c) : pyLower s = s := by
  unfold pyLower
  rw [List.map_congr_left h]
  show String.mk (s.toList.map (fun a => a)) = s
  rw [show s.toList.map (fun a => a) = s.toList from List.map_id' s.toList,
    stringMk_toList]

theorem pyDigit_not_white {c : Char} (h : pyDigit c = true) :
    pyWhite c = false := by
  unfold pyDigit at h
  unfold pyWhite
  simp at h ⊢
  omega

theorem pyDigit_ne_dash {c : Char} (h : pyDigit c = true) : c ≠ '-' := by
  intro hc
  subst hc
  simp [pyDigit] at h

theorem pyDigit_ne_plus {c : Char} (h : pyDigit c = true) : c ≠ '+' := by
  intro hc
  subst hc
  simp [pyDigit] at h

theorem pyDigit_ne_uscore {c : Char} (h : pyDigit c = true) : c ≠ '_' := by
  intro hc
  subst hc
  simp [pyDigit] at h

theorem pyIsDigit_mem {s : String} (h : pyIsDigit s = true) :
    ∀ c ∈ s.toList, pyDigit c = true := by
  unfold pyIsDigit at h
  intro c hc
  simp only [Bool.and_eq_true, List.all_eq_true] at h
  exact h.2 c hc

/-- Normalization is the identity on hyphenated digit tokens. -/
theorem normalize_digit_token {y m : String} (hy : pyIsDigit y = true)
    (hm : pyIsDigit m = true) :
    pyStrip (pyLower (y ++ "-" ++ m)) = y ++ "-" ++ m := by
  have hmem : ∀ c ∈ (y ++ "-" ++ m).toList, pyDigit c = true ∨ c = '-' := by
    intro c hc
    rw [toList_append3] at hc
    rcases List.mem_append.mp hc with h1 | h2
    · exact Or.inl (pyIsDigit_mem hy c h1)
    · rcases List.mem_cons.mp h2 with h3 | h4
      · exact Or.inr h3
      · exact Or.inl (pyIsDigit_mem hm c h4)
  rw [pyLower_eq_self, pyStrip_eq_self]
  · intro c hc
    rcases hmem c hc with h | h
    · exact pyDigit_not_white h
    · subst h; rfl
  · intro c hc
    rcases hmem c hc with h | h
    · exact pyCharLower_digit h
    · subst h; rfl

theorem pySplitAux_left {sep : Char} {ys zs : List Char}
    (h : ∀ c ∈ ys, c ≠ sep) :
    ∀ acc, pySplitAux sep (ys ++ sep :: zs) acc =
      (acc.reverse ++ ys) :: pySplitAux sep zs [] := by
  induction ys with
  | nil =>
    intro acc
    show pySplitAux sep (sep :: zs) acc = _
    rw [show pySplitAux sep (sep :: zs) acc =
      (if sep = sep then acc.reverse :: pySplitAux sep zs []
       else pySplitAux sep zs (sep :: acc)) from rfl]
    rw [if_pos rfl]
    simp
  | cons a t ih =>
    intro acc
    show pySplitAux sep (a :: (t ++ sep :: zs)) acc = _
    rw [show pySplitAux sep (a :: (t ++ sep :: zs)) acc =
      (if a = sep then acc.reverse :: pySplitAux sep (t ++ sep :: zs) []
       else pySplitAux sep (t ++ sep :: zs) (a :: acc)) from rfl]
    rw [if_neg (h a (by simp))]
    rw [ih (by intro c hc; exact h c (by simp [hc])) (a :: acc)]
    simp

theorem pySplitAux_nosep {sep : Char} {zs : List Char}
    (h : ∀ c ∈ zs, c ≠ sep) :
    ∀ acc, pySplitAux sep zs acc = [acc.reverse ++ zs] := by
  induction zs with
  | nil => intro acc; simp [pySplitAux]
  | cons a t ih =>
    intro acc
    rw [show pySplitAux sep (a :: t) acc =
      (if a = sep then acc.reverse :: pySplitAux sep t []
       else pySplitAux sep t (a :: acc)) from rfl]
    rw [if_neg (h a (by simp))]
    rw [ih (by intro c hc; exact h c (by simp [hc])) (a :: acc)]
    simp

/-- Splitting a hyphenated pair of hyphen-free segments. -/
theorem pySplit_pair {y m : String} (hy : ∀ c ∈ y.toList, c ≠ '-')
    (hm : ∀ c ∈ m.toList, c ≠ '-') :
    pySplit (y ++ "-" ++ m) '-' = [y, m] := by
  unfold pySplit
  rw [toList_append3, pySplitAux_left hy [], pySplitAux_nosep hm []]
  simp [stringMk_toList]

theorem length_append3 (y m : String) :
    (y ++ "-" ++ m).length = y.length + 1 + m.length := by
  show (y.data ++ "-".data ++ m.data).length = y.data.length + 1 + m.data.length
  simp
  omega

theorem quarters_none_of_len {q : String} (h : q.length ≠ 2) :
    quarters q = none := by
  unfold quarters
  rw [if_neg, if_neg, if_neg, if_neg]
  all_goals intro hc
  all_goals rw [hc] at h
  all_goals exact h rfl

theorem pyContains_append3 (y m : String) :
    pyContains (y ++ "-" ++ m) '-' = true := by
  unfold pyContains
  rw [toList_append3]
  simp [List.contains_iff_exists_mem_beq]

theorem pyIsDigit_append3 (y m : String) :
    pyIsDigit (y ++ "-" ++ m) = false := by
  unfold pyIsDigit
  rw [toList_append3]
  have hall : ((y.toList ++ '-' :: m.toList).all pyDigit) = false := by
    cases hq : (y.toList ++ '-' :: m.toList).all pyDigit with
    | false => rfl
    | true =>
      exfalso
      have := (List.all_eq_true.mp hq) '-' (by simp)
      simp [pyDigit] at this
  rw [hall]
  simp

theorem intLitTail_of_digits {l : List Char}
    (h : ∀ c ∈ l, pyDigit c = true) : intLitTail l = true := by
  induction l with
  | nil => rfl
  | cons a t ih =>
    unfold intLitTail
    rw [if_neg (pyDigit_ne_uscore (h a (by simp)))]
    rw [h a (by simp), ih (by intro c hc; exact h c (by simp [hc]))]
    rfl

theorem pyIntValid_digits {s : String} (h : pyIsDigit s = true) :
    pyIntValid s = true := by
  unfold pyIntValid
  rw [pyStrip_eq_self (by intro c hc; exact pyDigit_not_white (pyIsDigit_mem h c hc))]
  unfold pyIsDigit at h
  simp only [Bool.and_eq_true, Bool.not_eq_true', List.all_eq_true] at h
  obtain ⟨hne, hall⟩ := h
  cases hl : s.toList with
  | nil => rw [hl] at hne; simp at hne
  | cons a t =>
    have ha : pyDigit a = true := hall a (by rw [hl]; simp)
    rw [show pySign (a :: t) =
      (if a = '+' then ((1 : Int), t) else if a = '-' then (-1, t)
       else (1, a :: t)) from rfl]
    rw [if_neg (pyDigit_ne_plus ha), if_neg (pyDigit_ne_dash ha)]
    show intLitDigits (a :: t) = true
    rw [show intLitDigits (a :: t) = (pyDigit a && intLitTail t) from rfl,
      ha, intLitTail_of_digits (by
        intro c hc
        exact hall c (by rw [hl]; simp [hc]))]
    rfl

theorem pyIntVal_digits {s : String} (h : pyIsDigit s = true) :
    pyIntVal s = (digitsVal s : Int) := by
  unfold pyIntVal
  rw [pyStrip_eq_self (by intro c hc; exact pyDigit_not_white (pyIsDigit_mem h c hc))]
  unfold pyIsDigit at h
  simp only [Bool.and_eq_true, Bool.not_eq_true', List.all_eq_true] at h
  obtain ⟨hne, hall⟩ := h
  cases hl : s.toList with
  | nil => rw [hl] at hne; simp at hne
  | cons a t =>
    have ha : pyDigit a = true := hall a (by rw [hl]; simp)
    rw [show pySign (a :: t) =
      (if a = '+' then ((1 : Int), t) else if a = '-' then (-1, t)
       else (1, a :: t)) from rfl]
    rw [if_neg (pyDigit_ne_plus ha), if_neg (pyDigit_ne_dash ha)]
    show (1 : Int) * (digitsToNat ((a :: t).filter (fun c => c ≠ '_')) : Int) =
      (digitsVal s : Int)
    rw [List.filter_eq_self.mpr (by
      intro c hc
      simp only [ne_eq, decide_eq_true_eq]
      exact pyDigit_ne_uscore (hall c (by rw [hl]; simp [hc])))]
    rw [one_mul]
    unfold digitsVal
    rw [hl]

/-! ### Claim theorems: `parse_period` (C2, C3, C4) -/

/-- Counterexample to claim C2 as stated: `"1-1-1-1"` matches none of the
recognized shapes, yet it fails with a tuple-unpacking `ValueError` (its
length is 7 and it contains `-`, but `split('-')` yields four fields),
not with the "Invalid period format" error carrying the token. -/
theorem c2_counterexample :
    parse_period ⟨2025, 6, 15⟩ "1-1-1-1" = .error PyError.valueUnpack ∧
      PyError.valueUnpack ≠ PyError.invalidPeriodFormat "1-1-1-1" := by
  constructor
  · rfl
  · decide

/-- Claim C3 (code bug): `parse_period` succeeds on `"abcd-12"` (the
`month == 12` branch never validates the year segment) and returns the
bound `"abcd-12-01"`, which is not an ISO date string denoting a valid
Gregorian date, contradicting the documented invariant that successful
parses return ISO date bounds. -/
theorem c3_invalid_output :
    parse_period ⟨2025, 6, 15⟩ "abcd-12" = .ok ("abcd-12-01", some "abcd-12-31") ∧
      isValidIsoDate "abcd-12-01" = false := by
  constructor
  · rfl
  · rfl

theorem digitsToNat_fold_lt (cs : List Char) :
    ∀ a : Nat, cs.all pyDigit = true →
      cs.foldl (fun a c => a * 10 + (c.toNat - 48)) a <
        (a + 1) * 10 ^ cs.length := by
  induction cs with
  | nil =>
    intro a _
    simp
  | cons c t ih =>
    intro a hall
    rw [List.all_cons, Bool.and_eq_true] at hall
    have hc : c.toNat - 48 ≤ 9 := by
      have hdig := hall.1
      unfold pyDigit at hdig
      rw [Bool.and_eq_true, decide_eq_true_eq, decide_eq_true_eq] at hdig
      omega
    calc List.foldl (fun a c => a * 10 + (c.toNat - 48)) a (c :: t)
        = List.foldl (fun a c => a * 10 + (c.toNat - 48))
            (a * 10 + (c.toNat - 48)) t := rfl
      _ < (a * 10 + (c.toNat - 48) + 1) * 10 ^ t.length :=
          ih (a * 10 + (c.toNat - 48)) hall.2
      _ ≤ ((a + 1) * 10) * 10 ^ t.length :=
          Nat.mul_le_mul_right _ (by omega)
      _ = (a + 1) * 10 ^ (c :: t).length := by
          rw [List.length_cons, pow_succ]
          ring

/-- A 4-digit string has numeric value below `10^4`, hence within
`datetime`'s year range cap. -/
theorem digitsVal_le_9999 {s : String} (h4 : s.length = 4)
    (hd : pyIsDigit s = true) : digitsVal s ≤ 9999 := by
  have hall : s.toList.all pyDigit = true :=
    ((Bool.and_eq_true _ _).mp hd).2
  have hlen : s.toList.length = 4 := h4
  have hv : digitsVal s < 10000 := by
    calc digitsVal s
        = s.toList.foldl (fun a c => a * 10 + (c.toNat - 48)) 0 := rfl
      _ < (0 + 1) * 10 ^ s.toList.length := digitsToNat_fold_lt s.toList 0 hall
      _ = 10000 := by rw [hlen]; norm_num
  omega

/-- Counterexample to claim C4 as stated: for the all-digit two-character
month segment `"13"`, `parse_period "2025-13"` does not return a range at
all — `datetime(2025, 14, 1)` raises. -/
theorem c4_counterexample :
    parse_period ⟨2025, 6, 15⟩ "2025-13" = .error PyError.valueDateCtor := by
  rfl

/-- Claim C4 (corrected): restricted to month segments denoting months
1..12 and year segments with nonzero value (a year segment `0000` makes
the months-1..11 branch call `datetime(0, MM+1, 1)`, below `datetime`'s
minimum year, so it raises), `parse_period "YYYY-MM"` returns start
`YYYY-MM-01`, and the end is `YYYY-12-31` directly for month 12, else
the day before the first of the following month, which is the last day
of the month `MM`. -/
theorem c4_month_period (today : Date) (y m : String)
    (hy4 : y.length = 4) (hyd : pyIsDigit y = true)
    (hm2 : m.length = 2) (hmd : pyIsDigit m = true)
    (hlo : 1 ≤ digitsVal m) (hhi : digitsVal m ≤ 12)
    (hy1 : 1 ≤ digitsVal y) :
    parse_period today (y ++ "-" ++ m) =
      .ok (y ++ "-" ++ m ++ "-01",
        some (if digitsVal m = 12 then y ++ "-12-31"
          else y ++ "-" ++ m ++ "-" ++
            pad2 (daysInMonth (pyIntVal y) (digitsVal m)))) := by
  have hnorm := normalize_digit_token hyd hmd
  have hlen : (y ++ "-" ++ m).length = 7 := by rw [length_append3, hy4, hm2]
  have h1 : ¬ ((y ++ "-" ++ m) = "all") := by
    intro hc
    have h7 := hlen
    rw [hc] at h7
    exact absurd h7 (by decide)
  have h2 : ¬ ((y ++ "-" ++ m) = "ytd") := by
    intro hc
    have h7 := hlen
    rw [hc] at h7
    exact absurd h7 (by decide)
  have h3 : quarters (y ++ "-" ++ m) = none := by
    apply quarters_none_of_len
    rw [hlen]
    omega
  have h7s : pySplit (y ++ "-" ++ m) '-' = [y, m] :=
    pySplit_pair (fun c hc => pyDigit_ne_dash (pyIsDigit_mem hyd c hc))
      (fun c hc => pyDigit_ne_dash (pyIsDigit_mem hmd c hc))
  have h9 : pyIntVal m = (digitsVal m : Int) := pyIntVal_digits hmd
  have h10 : pyIntValid y = true := pyIntValid_digits hyd
  simp only [parse_period, hnorm, if_neg h1, if_neg h2, h3,
    pyIsDigit_append3, pyContains_append3, hlen, h7s, hmd, h9, h10,
    Bool.false_and, Bool.true_and, beq_self_eq_true, Bool.false_eq_true,
    eq_self_iff_true, if_true, if_false]
  by_cases hm12 : digitsVal m = 12
  · have hbeq : (((digitsVal m : Nat) : Int) == (12 : Int)) = true := by
      rw [hm12]
      rfl
    rw [if_pos hbeq, if_pos hm12]
  · have hbeq : (((digitsVal m : Nat) : Int) == (12 : Int)) = false := by
      cases hq : (((digitsVal m : Nat) : Int) == (12 : Int)) with
      | false => rfl
      | true =>
        exfalso
        have := beq_iff_eq.mp hq
        omega
    have hyv : pyIntVal y = (digitsVal y : Int) := pyIntVal_digits hyd
    have hy9999 : digitsVal y ≤ 9999 := digitsVal_le_9999 hy4 hyd
    have hylo : (1 : Int) ≤ pyIntVal y := by
      rw [hyv]
      exact_mod_cast hy1
    have hyhi : pyIntVal y ≤ 9999 := by
      rw [hyv]
      exact_mod_cast hy9999
    have hctor : datetimeCtor (pyIntVal y)
        (((digitsVal m : Nat) : Int).toNat + 1) 1 =
          .ok ⟨pyIntVal y, digitsVal m + 1, 1⟩ := by
      rw [Int.toNat_natCast]
      unfold datetimeCtor
      rw [if_pos]
      refine ⟨hylo, hyhi, by omega, by omega, by omega, ?_⟩
      have := daysInMonth_pos (y := pyIntVal y)
        (m := digitsVal m + 1) (by omega) (by omega)
      omega
    have hsub : pyDateSubDay ⟨pyIntVal y, digitsVal m + 1, 1⟩ =
        ⟨pyIntVal y, digitsVal m, daysInMonth (pyIntVal y) (digitsVal m)⟩ := by
      unfold pyDateSubDay
      rw [if_neg (show ¬ 2 ≤ (⟨pyIntVal y, digitsVal m + 1, 1⟩ : Date).day from
        by show ¬ 2 ≤ (1 : Nat); omega)]
      rw [if_pos (show 2 ≤ (⟨pyIntVal y, digitsVal m + 1, 1⟩ : Date).month from
        by show 2 ≤ digitsVal m + 1; omega)]
      rfl
    rw [if_neg (show ¬ ((((digitsVal m : Nat) : Int) == (12 : Int)) = true) from
      by rw [hbeq]; simp)]
    rw [hctor]
    simp only [hsub, if_neg hm12]

/-- Witness for C4 (amended): the spec's example `2025-03`. -/
theorem c4_witness :
    parse_period ⟨2025, 6, 15⟩ "2025-03" = .ok ("2025-03-01", some "2025-03-31") := by
  rw [show ("2025-03" : String) = "2025" ++ "-" ++ "03" from rfl]
  rw [c4_month_period ⟨2025, 6, 15⟩ "2025" "03" rfl rfl rfl rfl
    (by decide) (by decide) (by decide)]
  rfl

theorem quarters_some_shape {b : String} {v : String × String}
    (h : quarters b = some v) :
    b = "q1" ∨ b = "q2" ∨ b = "q3" ∨ b = "q4" := by
  unfold quarters at h
  split at h
  · left; assumption
  · split at h
    · right; left; assumption
    · split at h
      · right; right; left; assumption
      · split at h
        · right; right; right; assumption
        · cases h

/-- Claim C2 (corrected): `parse_period` fails with the
`Invalid period format` error — carrying the normalized token — exactly
on the tokens of `invalidFormatShape`: tokens matching none of the fixed
shapes that, if length-7 and hyphenated, split at a single hyphen into a
second segment that is neither all-digits nor a quarter key.  (Other
unrecognized length-7 hyphenated tokens fail differently: several hyphens
unpack-fail, and all-digit months out of range or non-integer years fail
in `datetime(...)` or `int(...)`.) -/
theorem c2_invalid_format_iff (today : Date) (p : String) :
    parse_period today p =
        .error (.invalidPeriodFormat (pyStrip (pyLower p))) ↔
      invalidFormatShape (pyStrip (pyLower p)) = true := by
  simp only [parse_period, invalidFormatShape]
  generalize pyStrip (pyLower p) = q
  by_cases h1 : q = "all"
  · simp [h1]
  simp only [if_neg h1]
  by_cases h2 : q = "ytd"
  · simp [h2]
  simp only [if_neg h2]
  cases h3 : quarters q with
  | some v =>
    obtain ⟨s3, e3⟩ := v
    simp [h3]
  | none =>
    simp only [h3]
    by_cases h4 : (pyIsDigit q && q.length == 4) = true
    · simp only [h4, eq_self_iff_true, if_true]
      constructor
      · intro hcon
        exfalso
        split at hcon
        · exact Except.noConfusion hcon
        · exact Except.noConfusion hcon
      · intro hcon
        exact absurd hcon (by simp)
    · simp only [if_neg h4]
      by_cases h5 : (pyContains q '-' && q.length == 7) = true
      · simp only [h5, eq_self_iff_true, if_true]
        cases h6 : pySplit q '-' with
        | nil => simp
        | cons a rest =>
          cases rest with
          | nil => simp
          | cons b rest2 =>
            cases rest2 with
            | nil =>
              cases h7 : pyIsDigit b with
              | true =>
                simp only [h7, Bool.not_true, Bool.false_and,
                  Bool.false_eq_true, iff_false, eq_self_iff_true, if_true]
                intro hcon
                split at hcon
                · exact Except.noConfusion hcon
                · split at hcon
                  · split at hcon
                    · exact Except.noConfusion hcon
                    · next e' heq =>
                      unfold datetimeCtor at heq
                      split at heq
                      · exact Except.noConfusion heq
                      · injection heq with heq
                        injection hcon with hcon
                        rw [← heq] at hcon
                        exact PyError.noConfusion hcon
                  · injection hcon with hcon
                    exact PyError.noConfusion hcon
              | false =>
                simp only [h7, Bool.not_false, Bool.true_and,
                  Bool.false_eq_true, if_false]
                by_cases h8 : (pyHeadIs b 'q' && pyIsDigit (pyDrop1 b)) = true
                · simp only [h8, eq_self_iff_true, if_true]
                  cases h9 : quarters b with
                  | some v2 =>
                    obtain ⟨s9, e9⟩ := v2
                    simp [h9]
                  | none => simp [h9]
                · simp only [if_neg h8]
                  have h9 : quarters b = none := by
                    cases h9 : quarters b with
                    | none => rfl
                    | some v2 =>
                      exfalso
                      rcases quarters_some_shape h9 with hb | hb | hb | hb
                      all_goals subst hb
                      all_goals exact h8 (by decide)
                  simp [h9]
            | cons c rest3 => simp
      · simp only [if_neg h5]

end Periods
